import Mathlib

/-!
A shallow embedding of the `lint_opq` style checker (file `tb/lint/lint_opq.py`).

Modelling conventions:
* Python `bytes` values are `List Nat` (one entry per byte); the carriage
  return byte is `13`, the line feed byte is `10`.
* Python `str` values that the checks scan character-wise are `List Char`;
  file-system paths stay `String` (their parts are obtained by splitting
  on the `/` separator, following POSIX path semantics).
* `str.splitlines` is modelled by `pySplitlines`, covering the full set of
  line-boundary characters Python recognises, with `\r\n` as one boundary.
* Python `sorted` on `Path` values is modelled as sorting by the full path
  string (the comparison Python performs on same-flavour POSIX paths).
-/

/-- Mirror of the `LintError` dataclass: a finding at a path and 1-indexed
line with a message. -/
structure LintError where
  path : String
  line : Nat
  msg : String
deriving DecidableEq

/-- Mirror of `_check_newline_and_crlf`: on raw bytes, one finding if any
carriage-return byte occurs, and one finding if the data is non-empty and
does not end with a line-feed byte. -/
def lintCheckNewlineAndCrlf (path : String) (data : List Nat) : List LintError :=
  (if data.contains 13 then
    [⟨path, 1, "CRLF/CR characters found (use LF only)"⟩]
  else []) ++
  (if !data.isEmpty && !(data.getLast? == some 10) then
    [⟨path, 1, "Missing trailing newline at EOF"⟩]
  else [])

/-- The line-boundary characters of Python `str.splitlines`: LF, CR, vertical
tab, form feed, the separators 0x1C-0x1E, NEL (0x85), and the Unicode line and
paragraph separators. -/
def isLineBreakChar (c : Char) : Bool :=
  c = '\n' || c = '\r' || c.toNat = 11 || c.toNat = 12 || c.toNat = 28 ||
    c.toNat = 29 || c.toNat = 30 || c.toNat = 133 || c.toNat = 8232 || c.toNat = 8233

/-- Worker for `pySplitlines`: `acc` holds the current line reversed; a
CR immediately followed by LF is one boundary; a final unterminated line is
kept, while a terminator at the end adds no empty line. -/
def pySplitlinesGo : List Char → List Char → List (List Char)
  | [], acc => if acc.isEmpty then [] else [acc.reverse]
  | [c], acc =>
    if isLineBreakChar c then [acc.reverse] else [(c :: acc).reverse]
  | c1 :: c2 :: rest, acc =>
    if c1 = '\r' ∧ c2 = '\n' then acc.reverse :: pySplitlinesGo rest []
    else if isLineBreakChar c1 then acc.reverse :: pySplitlinesGo (c2 :: rest) []
    else pySplitlinesGo (c2 :: rest) (c1 :: acc)

/-- Model of Python `str.splitlines()` on the character list of a string. -/
def pySplitlines (cs : List Char) : List (List Char) :=
  pySplitlinesGo cs []

/-- Python `line.endswith(" ") or line.endswith("\t")`. -/
def endsWithSpaceOrTab (line : List Char) : Bool :=
  match line.getLast? with
  | some c => c = ' ' || c = '\t'
  | none => false

/-- Mirror of `_check_trailing_whitespace`: one finding per 1-indexed line of
the split text that ends with a space or tab after terminator removal. -/
def lintCheckTrailingWhitespace (path : String) (text : List Char) : List LintError :=
  (List.enumFrom 1 (pySplitlines text)).flatMap fun pr =>
    if endsWithSpaceOrTab pr.2 then [⟨path, pr.1, "Trailing whitespace"⟩] else []

/-- The final segment produced by `pySplitlinesGo`: the characters after the
last line boundary (reversed accumulator when the input ends). -/
def finalSeg : List Char → List Char → List Char
  | [], acc => acc.reverse
  | [c], acc => if isLineBreakChar c then [] else (c :: acc).reverse
  | c1 :: c2 :: rest, acc =>
    if c1 = '\r' ∧ c2 = '\n' then finalSeg rest []
    else if isLineBreakChar c1 then finalSeg (c2 :: rest) []
    else finalSeg (c2 :: rest) (c1 :: acc)

/-- The character just before the end of `acc.reverse ++ A`, if any: the last
character of `A`, falling back to the head of the reversed accumulator. -/
def lastCharOf (A acc : List Char) : Option Char :=
  match A.getLast? with
  | some c => some c
  | none => acc.head?

/-- Python `s.startswith(pat)` on element lists (first argument is the
pattern). -/
def pyStartsWith [DecidableEq α] : List α → List α → Bool
  | [], _ => true
  | _ :: _, [] => false
  | p :: ps, c :: cs => if p = c then pyStartsWith ps cs else false

/-- Python `pat in s` (substring containment) on element lists (first
argument is the pattern). -/
def pyContains [DecidableEq α] : List α → List α → Bool
  | pat, [] => pyStartsWith pat []
  | pat, c :: rest => pyStartsWith pat (c :: rest) || pyContains pat rest

/-- Python `s.endswith(pat)` on element lists (first argument is the
pattern). -/
def pyEndsWith [DecidableEq α] (pat s : List α) : Bool :=
  pyStartsWith pat.reverse s.reverse

/-- Python `str.lower` (modelled on its ASCII range, which covers every path
this tool builds). -/
def lowerStr (s : String) : String :=
  String.mk (s.toList.map Char.toLower)

/-- Split a character list at every occurrence of a separator character
(Python `str.split(sep)` for a one-character separator). -/
def splitOnCharGo (sep : Char) : List Char → List Char → List (List Char)
  | [], acc => [acc.reverse]
  | c :: rest, acc =>
    if c = sep then acc.reverse :: splitOnCharGo sep rest []
    else splitOnCharGo sep rest (c :: acc)

def splitOnChar (sep : Char) (cs : List Char) : List (List Char) :=
  splitOnCharGo sep cs []

/-- The parts of a POSIX path string (`pathlib.PurePath.parts`, modelled by
splitting at the separator). -/
def pathParts (p : String) : List String :=
  (splitOnChar '/' p.toList).map String.mk

/-- Mirror of `pathlib.PurePath.name`: the final path component. -/
def pathName (p : String) : String :=
  (pathParts p).getLastD ""

/-- Mirror of `pathlib.PurePath.suffix`: the extension from the last dot of the name,
empty when the last dot is the name's first or last character. -/
def pathSuffix (p : String) : String :=
  let cs := (pathName p).toList
  match cs.reverse.findIdx? (· = '.') with
  | none => ""
  | some j =>
    let i := cs.length - 1 - j
    if 0 < i ∧ i < cs.length - 1 then String.mk (cs.drop i) else ""

/-- Mirror of `_is_text_ext`: the lower-cased file name ends with one of the
recognised source extensions. -/
def isTextExt (p : String) : Bool :=
  let name := (lowerStr (pathName p)).toList
  pyEndsWith ".vhd".toList name || pyEndsWith ".terp.vhd".toList name ||
    pyEndsWith ".sv".toList name || pyEndsWith ".v".toList name

/-- An abstract file system, standing for the directory tree `_iter_targets`
walks: which roots exist, the recursive enumeration a root yields
(`Path.rglob("*")`), and which entries are regular files. -/
structure FSModel where
  pathExists : String → Bool
  rglob : String → List String
  isFile : String → Bool

/-- The five scan roots of `_iter_targets`, resolved against the repository
root (`opq_split_dir.parents[2]` in the source). -/
def lintRoots (repoRoot : String) : List String :=
  [repoRoot ++ "/packet_scheduler/rtl",
   repoRoot ++ "/packet_scheduler/tb",
   repoRoot ++ "/packet_scheduler/uvm",
   repoRoot ++ "/uvm_order_priority_queue/tb",
   repoRoot ++ "/uvm_order_priority_queue/rtl_overrides"]

/-- Mirror of the nested `is_ignored` of `_iter_targets`: the disjunction of
the path-segment exclusion rules. -/
def isIgnored (p : String) : Bool :=
  let parts := pathParts p
  if parts.contains "trash_bin" then true
  else if parts.contains "packet_scheduler" && parts.contains "tb" &&
      (pathName p == "ordered_priority_queue.vhd"
        || pathName p == "ordered_priority_queue_wrapper.vhd") then true
  else if parts.any (fun part => pyStartsWith "work_uvm_".toList part.toList) then true
  else if parts.any (fun part =>
      part == "work" || part == "rtl_gen_split" || part == "rtl_gen_monolithic") then true
  else if parts.any (fun part => pyStartsWith "work_".toList part.toList) then true
  else if parts.contains "uvm_patched" then true
  else if parts.contains ".git" then true
  else if parts.contains ".qsys_edit" then true
  else false

/-- Mirror of `_iter_targets`: walk the existing roots, keep non-ignored
regular files with a recognised extension, then return `sorted(set(out))`
(dedup then sort by the full path string). -/
def iterTargets (repoRoot : String) (fs : FSModel) : List String :=
  let out := (lintRoots repoRoot).flatMap fun root =>
    if fs.pathExists root then
      (fs.rglob root).filter fun p => !isIgnored p && (fs.isFile p && isTextExt p)
    else []
  List.insertionSort (· ≤ ·) out.dedup

/-- Python `re` whitespace class on text (the characters `str.isspace`
accepts). -/
def pyIsSpace (c : Char) : Bool :=
  c = ' ' || c = '\t' || c = '\n' || c = '\r' || c.toNat = 11 || c.toNat = 12 ||
    c.toNat = 28 || c.toNat = 29 || c.toNat = 30 || c.toNat = 31 || c.toNat = 133 ||
    c.toNat = 160 || c.toNat = 5760 || (8192 ≤ c.toNat && c.toNat ≤ 8202) ||
    c.toNat = 8232 || c.toNat = 8233 || c.toNat = 8239 || c.toNat = 8287 ||
    c.toNat = 12288

/-- The regex word class `[A-Za-z0-9_]` (the ASCII range of `\w`, which is
also exactly the identifier class the process pattern uses). -/
def isWordChar (c : Char) : Bool :=
  ('a' ≤ c && c ≤ 'z') || ('A' ≤ c && c ≤ 'Z') || ('0' ≤ c && c ≤ '9') || c = '_'

/-- Case-insensitive literal matching: strips a lowercase pattern from the
front of the input, returning the matched original characters and the rest. -/
def stripCI : List Char → List Char → Option (List Char × List Char)
  | [], s => some ([], s)
  | _ :: _, [] => none
  | p :: ps, c :: cs =>
    if c.toLower = p then
      match stripCI ps cs with
      | some pr => some (c :: pr.1, pr.2)
      | none => none
    else none

/-- The anchored match of `^\s*(proc_[A-Za-z0-9_]+)\s*:\s*process\b` with
`re.IGNORECASE` against one line, returning group 1 (the labelled process
name) on success.  The literal tokens and the character classes involved are
pairwise disjoint, so greedy matching needs no backtracking. -/
def matchProcDecl (line : List Char) : Option (List Char) :=
  match stripCI "proc_".toList (line.dropWhile pyIsSpace) with
  | none => none
  | some g0 =>
    let ident := g0.2.takeWhile isWordChar
    if ident.isEmpty then none
    else
      match (g0.2.dropWhile isWordChar).dropWhile pyIsSpace with
      | ':' :: s5 =>
        match stripCI "process".toList (s5.dropWhile pyIsSpace) with
        | none => none
        | some g2 =>
          match g2.2 with
          | [] => some (g0.1 ++ ident)
          | c :: _ => if isWordChar c then none else some (g0.1 ++ ident)
      | _ => none

/-- The exact top-of-file delimiter line `_check_vhdl_header` requires. -/
def headerDelimiter : String :=
  "-- ------------------------------------------------------------------------------------------------------------"

/-- The three path fragments under which the VHDL checks are skipped. -/
def excludedVhdlPath (path : String) : Bool :=
  pyContains "/packet_scheduler/tb/".toList path.toList ||
    pyContains "/packet_scheduler/uvm/".toList path.toList ||
    pyContains "/uvm_order_priority_queue/tb/".toList path.toList

/-- The file-type guard shared by `_check_vhdl_header` and
`_check_vhdl_proc_doc`: a `.vhd` suffix or a `.terp.vhd` name ending. -/
def vhdlCheckApplies (path : String) : Bool :=
  lowerStr (pathSuffix path) == ".vhd" ||
    pyEndsWith ".terp.vhd".toList (lowerStr (pathName path)).toList

/-- The header search window `"\n".join(text.splitlines()[:80])`. -/
def headLines (text : List Char) : List Char :=
  List.intercalate ['\n'] ((pySplitlines text).take 80)

/-- Mirror of `_check_vhdl_header`: for in-scope VHDL files, require the
exact delimiter line at the very start and the four labelled fields within
the first 80 lines; one finding at line 1 per missing requirement. -/
def lintCheckVhdlHeader (path : String) (text : List Char) : List LintError :=
  if !vhdlCheckApplies path then []
  else if excludedVhdlPath path then []
  else if pathName path == "ordered_priority_queue_top.vhd" then []
  else
    (if !pyStartsWith headerDelimiter.toList text then
      [⟨path, 1, "Missing top-of-file delimiter line \"" ++ headerDelimiter ++ "\""⟩]
    else []) ++
    (if !pyContains "IP Name:".toList (headLines text) then
      [⟨path, 1, "Missing header field \"IP Name:\" in top-of-file comment block"⟩]
    else []) ++
    (if !pyContains "Author:".toList (headLines text) then
      [⟨path, 1, "Missing header field \"Author:\" in top-of-file comment block"⟩]
    else []) ++
    (if !pyContains "Revision:".toList (headLines text) then
      [⟨path, 1, "Missing header field \"Revision:\" in top-of-file comment block"⟩]
    else []) ++
    (if !pyContains "Description:".toList (headLines text) then
      [⟨path, 1, "Missing header field \"Description:\" in top-of-file comment block"⟩]
    else [])

/-- Mirror of `_check_vhdl_proc_doc`: for in-scope VHDL files, every line
matching the labelled-process pattern is checked against the joined window
`lines[max(0, idx - 400) : idx]` (`idx` is the 1-based line number, so the
window is the matched line itself plus up to 399 preceding lines); a finding
per annotation tag missing from that window.  `procDocLine` is the loop body
of `_check_vhdl_proc_doc` for one enumerated line. -/
def procDocLine (path : String) (lines : List (List Char)) (pr : Nat × List Char) :
    List LintError :=
  match matchProcDecl pr.2 with
  | none => []
  | some g1 =>
    let lookback := List.intercalate ['\n'] ((lines.take pr.1).drop (pr.1 - 400))
    (if !pyContains "-- @name".toList lookback then
      [⟨path, pr.1, String.mk g1 ++ " missing preceding \"-- @name\" block"⟩]
    else []) ++
    (if !pyContains "-- @brief".toList lookback then
      [⟨path, pr.1, String.mk g1 ++ " missing preceding \"-- @brief\" block"⟩]
    else [])

def lintCheckVhdlProcDoc (path : String) (text : List Char) : List LintError :=
  if !vhdlCheckApplies path then []
  else if excludedVhdlPath path then []
  else
    (List.enumFrom 1 (pySplitlines text)).flatMap (procDocLine path (pySplitlines text))

/-- Whether a byte is a UTF-8 continuation byte (`0x80`-`0xBF`). -/
def utf8Cont (b : Nat) : Bool := 128 ≤ b && b ≤ 191

/-- Strict UTF-8 decoding of a byte list, as `bytes.decode("utf-8")`:
rejects stray continuation bytes, overlong encodings, surrogate code points
and code points beyond `U+10FFFF`; `none` models `UnicodeDecodeError`. -/
def utf8Decode : List Nat → Option (List Char)
  | [] => some []
  | b :: bs =>
    if b ≤ 127 then
      (utf8Decode bs).map (fun cs => Char.ofNat b :: cs)
    else if b ≤ 193 then none
    else if b ≤ 223 then
      match bs with
      | b2 :: bs2 =>
        if utf8Cont b2 then
          (utf8Decode bs2).map (fun cs => Char.ofNat ((b - 192) * 64 + (b2 - 128)) :: cs)
        else none
      | [] => none
    else if b ≤ 239 then
      match bs with
      | b2 :: b3 :: bs3 =>
        if utf8Cont b2 && utf8Cont b3
            && !(b == 224 && b2 ≤ 159)
            && !(b == 237 && 160 ≤ b2) then
          (utf8Decode bs3).map
            (fun cs => Char.ofNat ((b - 224) * 4096 + (b2 - 128) * 64 + (b3 - 128)) :: cs)
        else none
      | _ => none
    else if b ≤ 244 then
      match bs with
      | b2 :: b3 :: b4 :: bs4 =>
        if utf8Cont b2 && utf8Cont b3 && utf8Cont b4
            && !(b == 240 && b2 ≤ 143)
            && !(b == 244 && 144 ≤ b2) then
          (utf8Decode bs4).map
            (fun cs => Char.ofNat
              ((b - 240) * 262144 + (b2 - 128) * 4096 + (b3 - 128) * 64 + (b4 - 128)) :: cs)
        else none
      | _ => none
    else none

/-- The per-target body of the `main` loop: the byte-level check always runs;
if UTF-8 decoding fails a single finding is recorded and the text-based
checks are skipped for this file; otherwise the three text-based checks run
in order.  `read` stands for `path.read_bytes()`. -/
def processFile (read : String → List Nat) (path : String) : List LintError :=
  lintCheckNewlineAndCrlf path (read path) ++
    match utf8Decode (read path) with
    | none => [⟨path, 1, "File is not valid UTF-8"⟩]
    | some text =>
      lintCheckTrailingWhitespace path text ++ lintCheckVhdlHeader path text ++
        lintCheckVhdlProcDoc path text

/-- The findings `main` accumulates over the target list, in target order. -/
def mainErrs (targets : List String) (read : String → List Nat) : List LintError :=
  targets.flatMap (processFile read)

/-- Exit code and findings of `main`: `2` with nothing collected when
discovery is empty, else `1` when findings exist and `0` otherwise. -/
def mainRun (repoRoot : String) (fs : FSModel) (read : String → List Nat) :
    Nat × List LintError :=
  let targets := iterTargets repoRoot fs
  if targets.isEmpty then (2, [])
  else
    let errs := mainErrs targets read
    if errs.isEmpty then (0, errs) else (1, errs)

/-- One rendered report line: `f"{e.path}:{e.line}: {e.msg}"`. -/
def fmtLintError (e : LintError) : String :=
  e.path ++ ":" ++ toString e.line ++ ": " ++ e.msg

/-- The failure report `main` prints when findings exist: the FAIL header and
a blank line (one `print` with a trailing `\n`), the first 200 findings, and
a remainder line when more than 200 were collected. -/
def renderFailure (errs : List LintError) : List String :=
  ["opq_lint: FAIL", ""] ++ (errs.take 200).map fmtLintError ++
    (if 200 < errs.length then ["... and " ++ toString (errs.length - 200) ++ " more"] else [])

/-- A list of 250 distinct findings used to evaluate the report cap. -/
def errs250 : List LintError :=
  (List.range 250).map (fun i => ⟨"f.vhd", i + 1, "m"⟩)

/-- A tree with no existing roots. -/
def fsEmptyW : FSModel :=
  ⟨fun _ => false, fun _ => [], fun _ => false⟩

/-- File contents for the decode-failure run: `b.vhd` holds a lone invalid
byte, everything else a valid one-line file. -/
def readC5 : String → List Nat :=
  fun q => if q = "b.vhd" then [255] else [104, 10]

/-- A two-root tree used to evaluate discovery concretely. -/
def fsW : FSModel where
  pathExists := fun r => r ≠ "/repo/uvm_order_priority_queue/tb"
  rglob := fun r =>
    if r = "/repo/packet_scheduler/rtl" then
      ["/repo/packet_scheduler/rtl/b.vhd",
       "/repo/packet_scheduler/rtl/a.vhd",
       "/repo/packet_scheduler/rtl/work/x.vhd",
       "/repo/packet_scheduler/rtl/b.vhd"]
    else if r = "/repo/packet_scheduler/tb" then
      ["/repo/packet_scheduler/tb/t.sv",
       "/repo/packet_scheduler/tb/ordered_priority_queue.vhd",
       "/repo/packet_scheduler/tb/notes.txt"]
    else []
  isFile := fun p => p ≠ "/repo/packet_scheduler/rtl"

/-- A complete header: delimiter first line, all four fields. -/
def goodVhdlHeader : String :=
  headerDelimiter ++ "\nIP Name: opq\nAuthor: me\nRevision: 1.0\nDescription: queue\n"

/-- The same header without the Author field. -/
def noAuthorVhdlHeader : String :=
  headerDelimiter ++ "\nIP Name: opq\nRevision: 1.0\nDescription: queue\n"

/-- A small file whose third line declares a documented process. -/
def procDocTextW : String :=
  "-- @name x\n-- @brief y\nproc_a : process (clk)"

theorem lintCheckNewlineAndCrlf_line_one (path : String) (data : List Nat) :
    ∀ e ∈ lintCheckNewlineAndCrlf path data, e.line = 1 ∧ e.path = path := by
  intro e he
  unfold lintCheckNewlineAndCrlf at he
  rcases List.mem_append.1 he with h | h <;> split at h <;>
    simp_all

/-- C7: the carriage-return rule fires exactly once (at line 1) when the
content holds at least one CR byte, however many there are, and never
otherwise. -/
theorem c7_cr_rule_single_finding (path : String) (data : List Nat) :
    ((lintCheckNewlineAndCrlf path data).countP
        (fun e => e.msg = "CRLF/CR characters found (use LF only)"))
      = (if data.contains 13 then 1 else 0)
    ∧ ∀ e ∈ lintCheckNewlineAndCrlf path data,
        e.msg = "CRLF/CR characters found (use LF only)" → e.line = 1 := by
  constructor
  · unfold lintCheckNewlineAndCrlf
    split <;> split <;> simp [List.countP_cons]
  · intro e he _
    exact (lintCheckNewlineAndCrlf_line_one path data e he).1

/-- C7 witness: a content with three CR bytes yields exactly one CR finding,
and a CR-free content yields none. -/
theorem c7_witness :
    ((lintCheckNewlineAndCrlf "a.vhd" [13, 65, 13, 13, 10]).countP
        (fun e => e.msg = "CRLF/CR characters found (use LF only)"))
      = (if ([13, 65, 13, 13, 10] : List Nat).contains 13 then 1 else 0) := by
  exact (c7_cr_rule_single_finding "a.vhd" [13, 65, 13, 13, 10]).1

/-- C8: the missing-trailing-newline rule fires exactly once, at line 1, on
non-empty content whose last byte is not LF; appending an LF byte removes
the finding, and empty content never triggers it. -/
theorem c8_eof_newline_rule (path : String) (data : List Nat) :
    ((lintCheckNewlineAndCrlf path data).countP
        (fun e => e.msg = "Missing trailing newline at EOF"))
      = (if data.isEmpty then 0 else if data.getLast? == some 10 then 0 else 1)
    ∧ ((lintCheckNewlineAndCrlf path (data ++ [10])).countP
        (fun e => e.msg = "Missing trailing newline at EOF")) = 0
    ∧ ((lintCheckNewlineAndCrlf path []).countP
        (fun e => e.msg = "Missing trailing newline at EOF")) = 0
    ∧ ∀ e ∈ lintCheckNewlineAndCrlf path data,
        e.msg = "Missing trailing newline at EOF" → e.line = 1 := by
  refine ⟨?_, ?_, ?_, ?_⟩
  · unfold lintCheckNewlineAndCrlf
    rcases data.eq_nil_or_concat with rfl | ⟨l, a, rfl⟩
    · simp
    · split <;> split <;> simp_all [List.countP_cons, List.getLast?_concat]
  · unfold lintCheckNewlineAndCrlf
    have h : ((data ++ [10]).getLast? == some 10) = true := by
      simp [List.getLast?_concat]
    split <;> simp_all [List.countP_cons]
  · simp [lintCheckNewlineAndCrlf]
  · intro e he _
    exact (lintCheckNewlineAndCrlf_line_one path data e he).1

/-- C8 witness: content "ab" (no trailing LF) triggers the rule once; with an
LF appended it does not. -/
theorem c8_witness :
    ((lintCheckNewlineAndCrlf "a.vhd" [97, 98]).countP
        (fun e => e.msg = "Missing trailing newline at EOF")) = 1
    ∧ ((lintCheckNewlineAndCrlf "a.vhd" ([97, 98] ++ [10])).countP
        (fun e => e.msg = "Missing trailing newline at EOF")) = 0 := by
  have h := c8_eof_newline_rule "a.vhd" [97, 98]
  exact ⟨by simpa using h.1, h.2.1⟩

/-- Findings produced at an enumeration index before `n` do not occur in the
flat-mapped output of `List.enumFrom n`. -/
theorem filter_line_flatMap_enumFrom_lt
    (g : Nat × List Char → List LintError)
    (hg : ∀ p e, e ∈ g p → e.line = p.1) :
    ∀ (ls : List (List Char)) (n idx : Nat), idx < n →
      ((List.enumFrom n ls).flatMap g).filter (fun e => e.line = idx) = [] := by
  intro ls
  induction ls with
  | nil => intro n idx _; simp [List.enumFrom]
  | cons l ls ih =>
    intro n idx hlt
    simp only [List.enumFrom, List.flatMap_cons, List.filter_append]
    rw [List.filter_eq_nil_iff.2, ih (n + 1) idx (by omega), List.append_nil]
    intro e he
    have := hg (n, l) e he
    simp_all
    omega

/-- Restricting the flat-mapped output of `List.enumFrom n` to findings at
line `idx` yields exactly the contribution of the entry at position
`idx - n`. -/
theorem filter_line_flatMap_enumFrom
    (g : Nat × List Char → List LintError)
    (hg : ∀ p e, e ∈ g p → e.line = p.1) :
    ∀ (ls : List (List Char)) (n idx : Nat) (line : List Char), n ≤ idx →
      ls[idx - n]? = some line →
      ((List.enumFrom n ls).flatMap g).filter (fun e => e.line = idx) = g (idx, line) := by
  intro ls
  induction ls with
  | nil => intro n idx line _ h; simp at h
  | cons l ls ih =>
    intro n idx line hn hline
    simp only [List.enumFrom, List.flatMap_cons, List.filter_append]
    by_cases hidx : idx = n
    · subst hidx
      have h0 : idx - idx = 0 := by omega
      rw [h0] at hline
      simp only [List.getElem?_cons_zero, Option.some.injEq] at hline
      rw [List.filter_eq_self.2, filter_line_flatMap_enumFrom_lt g hg ls (idx + 1) idx (by omega),
        List.append_nil, hline]
      intro e he
      have hl := hg (idx, l) e he
      simp_all
    · have hsucc : idx - n = (idx - (n + 1)) + 1 := by omega
      rw [hsucc] at hline
      simp only [List.getElem?_cons_succ] at hline
      rw [List.filter_eq_nil_iff.2, ih (n + 1) idx line (by omega) hline, List.nil_append]
      intro e he
      have hl := hg (n, l) e he
      rw [hl]
      simp only [decide_eq_true_eq]
      omega

/-- C9: for every line of the decoded text (1-indexed), the trailing
whitespace check emits exactly one finding at that line number when the
terminator-stripped line ends in a space or tab, and none otherwise; every
finding carries the fixed message and the file's path. -/
theorem c9_trailing_whitespace_per_line (path : String) (text : List Char)
    (idx : Nat) (line : List Char) (h1 : 1 ≤ idx)
    (hline : (pySplitlines text)[idx - 1]? = some line) :
    (lintCheckTrailingWhitespace path text).filter (fun e => e.line = idx)
      = (if endsWithSpaceOrTab line then [⟨path, idx, "Trailing whitespace"⟩] else [])
    ∧ (lintCheckTrailingWhitespace path text).countP (fun e => e.line = idx)
      = (if endsWithSpaceOrTab line then 1 else 0)
    ∧ ∀ e ∈ lintCheckTrailingWhitespace path text,
        e.msg = "Trailing whitespace" ∧ e.path = path := by
  have hg : ∀ (p : Nat × List Char) (e : LintError),
      e ∈ (if endsWithSpaceOrTab p.2 then [(⟨path, p.1, "Trailing whitespace"⟩ : LintError)] else [])
      → e.line = p.1 := by
    intro p e he
    split at he <;> simp_all
  have hmain := filter_line_flatMap_enumFrom _ hg (pySplitlines text) 1 idx line h1 hline
  refine ⟨hmain, ?_, ?_⟩
  · rw [List.countP_eq_length_filter]
    unfold lintCheckTrailingWhitespace
    rw [hmain]
    split <;> simp
  · intro e he
    simp only [lintCheckTrailingWhitespace, List.mem_flatMap] at he
    obtain ⟨p, _, hp⟩ := he
    split at hp <;> simp_all

/-- C9 witness: in the text "ab \ncd\n" line 1 ends with a space and gets
exactly one finding at line 1. -/
theorem c9_witness :
    (lintCheckTrailingWhitespace "a.vhd" "ab \ncd\n".toList).filter (fun e => e.line = 1)
      = [⟨"a.vhd", 1, "Trailing whitespace"⟩] := by
  have h := c9_trailing_whitespace_per_line "a.vhd" "ab \ncd\n".toList 1 "ab ".toList
    (by decide) (by decide)
  rw [h.1]
  decide

theorem pySplitlinesGo_nil (acc : List Char) :
    pySplitlinesGo [] acc = if acc.isEmpty then [] else [acc.reverse] := rfl

theorem pySplitlinesGo_one (c : Char) (acc : List Char) :
    pySplitlinesGo [c] acc
      = if isLineBreakChar c then [acc.reverse] else [(c :: acc).reverse] := rfl

theorem pySplitlinesGo_two (c1 c2 : Char) (rest acc : List Char) :
    pySplitlinesGo (c1 :: c2 :: rest) acc
      = if c1 = '\r' ∧ c2 = '\n' then acc.reverse :: pySplitlinesGo rest []
        else if isLineBreakChar c1 then acc.reverse :: pySplitlinesGo (c2 :: rest) []
        else pySplitlinesGo (c2 :: rest) (c1 :: acc) := rfl

theorem finalSeg_nil (acc : List Char) : finalSeg [] acc = acc.reverse := rfl

theorem finalSeg_one (c : Char) (acc : List Char) :
    finalSeg [c] acc = if isLineBreakChar c then [] else (c :: acc).reverse := rfl

theorem finalSeg_two (c1 c2 : Char) (rest acc : List Char) :
    finalSeg (c1 :: c2 :: rest) acc
      = if c1 = '\r' ∧ c2 = '\n' then finalSeg rest []
        else if isLineBreakChar c1 then finalSeg (c2 :: rest) []
        else finalSeg (c2 :: rest) (c1 :: acc) := rfl

theorem getLast?_cons_of_some {α : Type} (a x : α) (l : List α) (h : l.getLast? = some x) :
    (a :: l).getLast? = some x := by
  cases l with
  | nil => simp at h
  | cons b t => rw [List.getLast?_cons_cons]; exact h

/-- Splitting lines distributes over a CRLF boundary: the lines of
`A ++ "\r\n" ++ B` are the lines of `A ++ "\r\n"` followed by the lines of
`B`, whatever `A` and `B` are. -/
theorem pySplitlinesGo_append_crlf (B : List Char) :
    ∀ (n : Nat) (A acc : List Char), A.length ≤ n →
      pySplitlinesGo (A ++ '\r' :: '\n' :: B) acc
        = pySplitlinesGo (A ++ ['\r', '\n']) acc ++ pySplitlinesGo B [] := by
  have hbase : ∀ acc : List Char,
      pySplitlinesGo ('\r' :: '\n' :: B) acc
        = pySplitlinesGo ['\r', '\n'] acc ++ pySplitlinesGo B [] := by
    intro acc
    rw [pySplitlinesGo_two, pySplitlinesGo_two,
      if_pos (⟨rfl, rfl⟩ : '\r' = '\r' ∧ '\n' = '\n'),
      if_pos (⟨rfl, rfl⟩ : '\r' = '\r' ∧ '\n' = '\n')]
    simp [pySplitlinesGo_nil]
  intro n
  induction n with
  | zero =>
    intro A acc hA
    obtain rfl : A = [] := List.eq_nil_of_length_eq_zero (Nat.le_zero.1 hA)
    simpa using hbase acc
  | succ n ih =>
    intro A acc hA
    rcases A with _ | ⟨c, A'⟩
    · simpa using hbase acc
    rcases A' with _ | ⟨c2, A''⟩
    · by_cases hc : isLineBreakChar c = true <;>
        simp [pySplitlinesGo_two, pySplitlinesGo_one, pySplitlinesGo_nil, hc]
    · simp only [List.length_cons] at hA
      by_cases hcrlf : c = '\r' ∧ c2 = '\n'
      · obtain ⟨rfl, rfl⟩ := hcrlf
        have h := ih A'' [] (by omega)
        simp only [List.cons_append] at h ⊢
        simp [pySplitlinesGo_two, h]
      · by_cases hc : isLineBreakChar c = true
        · have h := ih (c2 :: A'') [] (by simp; omega)
          simp only [List.cons_append] at h ⊢
          simp [pySplitlinesGo_two, hcrlf, hc, h]
        · have h := ih (c2 :: A'') (c :: acc) (by simp; omega)
          simp only [List.cons_append] at h ⊢
          simp [pySplitlinesGo_two, hcrlf, hc, h]

/-- The `pySplitlines` version of the CRLF splitting property. -/
theorem pySplitlines_append_crlf (A B : List Char) :
    pySplitlines (A ++ '\r' :: '\n' :: B)
      = pySplitlines (A ++ ['\r', '\n']) ++ pySplitlines B :=
  pySplitlinesGo_append_crlf B A.length A [] le_rfl

/-- The last line of `A ++ "\r\n"` is the final segment of `A`. -/
theorem pySplitlinesGo_crlf_getLast :
    ∀ (n : Nat) (A acc : List Char), A.length ≤ n →
      (pySplitlinesGo (A ++ ['\r', '\n']) acc).getLast? = some (finalSeg A acc) := by
  have hbase : ∀ acc : List Char,
      (pySplitlinesGo ['\r', '\n'] acc).getLast? = some acc.reverse := by
    intro acc
    rw [pySplitlinesGo_two, if_pos (⟨rfl, rfl⟩ : '\r' = '\r' ∧ '\n' = '\n')]
    simp [pySplitlinesGo_nil]
  intro n
  induction n with
  | zero =>
    intro A acc hA
    obtain rfl : A = [] := List.eq_nil_of_length_eq_zero (Nat.le_zero.1 hA)
    simpa [finalSeg_nil] using hbase acc
  | succ n ih =>
    intro A acc hA
    rcases A with _ | ⟨c, A'⟩
    · simpa [finalSeg_nil] using hbase acc
    rcases A' with _ | ⟨c2, A''⟩
    · by_cases hc : isLineBreakChar c = true <;>
        simp [pySplitlinesGo_two, pySplitlinesGo_one, pySplitlinesGo_nil, finalSeg_one, hc,
          List.getLast?_cons_cons]
    · simp only [List.length_cons] at hA
      by_cases hcrlf : c = '\r' ∧ c2 = '\n'
      · obtain ⟨rfl, rfl⟩ := hcrlf
        have hexp : pySplitlinesGo (('\r' :: '\n' :: A'') ++ ['\r', '\n']) acc
            = acc.reverse :: pySplitlinesGo (A'' ++ ['\r', '\n']) [] := by
          simp [pySplitlinesGo_two]
        rw [hexp, finalSeg_two, if_pos (⟨rfl, rfl⟩ : ('\r' : Char) = '\r' ∧ ('\n' : Char) = '\n')]
        exact getLast?_cons_of_some _ _ _ (ih A'' [] (by omega))
      · by_cases hc : isLineBreakChar c = true
        · have hexp : pySplitlinesGo ((c :: c2 :: A'') ++ ['\r', '\n']) acc
              = acc.reverse :: pySplitlinesGo ((c2 :: A'') ++ ['\r', '\n']) [] := by
            simp [pySplitlinesGo_two, hcrlf, hc]
          rw [hexp, finalSeg_two, if_neg hcrlf, if_pos hc]
          exact getLast?_cons_of_some _ _ _ (ih (c2 :: A'') [] (by simp; omega))
        · have hexp : pySplitlinesGo ((c :: c2 :: A'') ++ ['\r', '\n']) acc
              = pySplitlinesGo ((c2 :: A'') ++ ['\r', '\n']) (c :: acc) := by
            simp [pySplitlinesGo_two, hcrlf, hc]
          rw [hexp, finalSeg_two, if_neg hcrlf, if_neg hc]
          exact ih (c2 :: A'') (c :: acc) (by simp; omega)

theorem lastCharOf_nil (acc : List Char) : lastCharOf [] acc = acc.head? := rfl

theorem lastCharOf_empty_acc (A : List Char) : lastCharOf A [] = A.getLast? := by
  unfold lastCharOf
  cases hl : A.getLast? with
  | none => rfl
  | some c => rfl

theorem lastCharOf_ne_nil (A : List Char) (acc : List Char) (h : A ≠ []) :
    lastCharOf A acc = A.getLast? := by
  unfold lastCharOf
  cases hl : A.getLast? with
  | none => exact absurd (List.getLast?_eq_none_iff.1 hl) h
  | some c => rfl

theorem lastCharOf_cons (c : Char) (A' acc : List Char) :
    lastCharOf (c :: A') acc = lastCharOf A' (c :: acc) := by
  cases A' with
  | nil => simp [lastCharOf]
  | cons d t =>
    rw [lastCharOf_ne_nil _ _ (by simp), lastCharOf_ne_nil _ _ (by simp),
      List.getLast?_cons_cons]

/-- If neither the last character of `A` nor (for empty `A`) the most recent
accumulator character is a space or tab, the final segment of `A` has no
trailing space or tab. -/
theorem finalSeg_not_ends :
    ∀ (n : Nat) (A acc : List Char), A.length ≤ n →
      lastCharOf A acc ≠ some ' ' → lastCharOf A acc ≠ some '\t' →
      endsWithSpaceOrTab (finalSeg A acc) = false := by
  have hbase : ∀ acc : List Char,
      lastCharOf [] acc ≠ some ' ' → lastCharOf [] acc ≠ some '\t' →
      endsWithSpaceOrTab (finalSeg [] acc) = false := by
    intro acc h1 h2
    rw [lastCharOf_nil] at h1 h2
    rw [finalSeg_nil]
    unfold endsWithSpaceOrTab
    rw [List.getLast?_reverse]
    cases hh : acc.head? with
    | none => rfl
    | some c =>
      rw [hh] at h1 h2
      simp_all
  intro n
  induction n with
  | zero =>
    intro A acc hA h1 h2
    obtain rfl : A = [] := List.eq_nil_of_length_eq_zero (Nat.le_zero.1 hA)
    exact hbase acc h1 h2
  | succ n ih =>
    intro A acc hA h1 h2
    rcases A with _ | ⟨c, A'⟩
    · exact hbase acc h1 h2
    rcases A' with _ | ⟨c2, A''⟩
    · rw [lastCharOf_cons, lastCharOf_nil] at h1 h2
      simp only [List.head?_cons] at h1 h2
      rw [finalSeg_one]
      by_cases hc : isLineBreakChar c = true
      · rw [if_pos hc]; rfl
      · rw [if_neg hc]
        unfold endsWithSpaceOrTab
        rw [List.getLast?_reverse]
        simp only [List.head?_cons]
        simp_all
    · simp only [List.length_cons] at hA
      rw [finalSeg_two]
      by_cases hcrlf : c = '\r' ∧ c2 = '\n'
      · rw [if_pos hcrlf]
        rcases A'' with _ | ⟨d, t⟩
        · rfl
        · refine ih (d :: t) [] (by omega) ?_ ?_ <;>
            rw [lastCharOf_empty_acc, ← List.getLast?_cons_cons (a := c2),
              ← List.getLast?_cons_cons (a := c), ← lastCharOf_ne_nil _ acc (by simp)]
          · exact h1
          · exact h2
      · rw [if_neg hcrlf]
        by_cases hc : isLineBreakChar c = true
        · rw [if_pos hc]
          refine ih (c2 :: A'') [] (by simp; omega) ?_ ?_ <;>
            rw [lastCharOf_empty_acc, ← List.getLast?_cons_cons (a := c),
              ← lastCharOf_ne_nil _ acc (by simp)]
          · exact h1
          · exact h2
        · rw [if_neg hc]
          refine ih (c2 :: A'') (c :: acc) (by simp; omega) ?_ ?_ <;>
            rw [← lastCharOf_cons]
          · exact h1
          · exact h2

/-- C10: when a line is terminated by a CRLF pair and the character just
before the CR is neither a space nor a tab, the trailing-whitespace check
reports nothing for that line: the CR is stripped with the terminator and is
never itself counted as trailing whitespace. -/
theorem c10_crlf_stripped_before_inspection (path : String) (A B : List Char)
    (h1 : A.getLast? ≠ some ' ') (h2 : A.getLast? ≠ some '\t') :
    ∀ e ∈ lintCheckTrailingWhitespace path (A ++ '\r' :: '\n' :: B),
      e.line ≠ (pySplitlines (A ++ ['\r', '\n'])).length := by
  intro e he hek
  have hlast : (pySplitlines (A ++ ['\r', '\n'])).getLast? = some (finalSeg A []) :=
    pySplitlinesGo_crlf_getLast A.length A [] le_rfl
  have hne : pySplitlines (A ++ ['\r', '\n']) ≠ [] := by
    intro h0; rw [h0] at hlast; simp at hlast
  have hk1 : 1 ≤ (pySplitlines (A ++ ['\r', '\n'])).length := List.length_pos.2 hne
  have hidx : (pySplitlines (A ++ '\r' :: '\n' :: B))[(pySplitlines (A ++ ['\r', '\n'])).length - 1]?
      = some (finalSeg A []) := by
    rw [pySplitlines_append_crlf,
      List.getElem?_append_left (by omega : (pySplitlines (A ++ ['\r', '\n'])).length - 1
        < (pySplitlines (A ++ ['\r', '\n'])).length),
      ← List.getLast?_eq_getElem?]
    exact hlast
  have hends : endsWithSpaceOrTab (finalSeg A []) = false := by
    refine finalSeg_not_ends A.length A [] le_rfl ?_ ?_ <;> rw [lastCharOf_empty_acc]
    · exact h1
    · exact h2
  have hg : ∀ (p : Nat × List Char) (e' : LintError),
      e' ∈ (if endsWithSpaceOrTab p.2 then [(⟨path, p.1, "Trailing whitespace"⟩ : LintError)] else [])
      → e'.line = p.1 := by
    intro p e' he'
    split at he' <;> simp_all
  have hfilter := filter_line_flatMap_enumFrom _ hg
    (pySplitlines (A ++ '\r' :: '\n' :: B)) 1
    (pySplitlines (A ++ ['\r', '\n'])).length (finalSeg A []) hk1 hidx
  rw [hends] at hfilter
  simp only [Bool.false_eq_true, if_false] at hfilter
  unfold lintCheckTrailingWhitespace at he
  have hmem : e ∈ ((List.enumFrom 1 (pySplitlines (A ++ '\r' :: '\n' :: B))).flatMap
      (fun pr => if endsWithSpaceOrTab pr.2 then [(⟨path, pr.1, "Trailing whitespace"⟩ : LintError)] else [])).filter
      (fun e => e.line = (pySplitlines (A ++ ['\r', '\n'])).length) :=
    List.mem_filter.2 ⟨he, by simp [hek]⟩
  rw [hfilter] at hmem
  exact absurd hmem (List.not_mem_nil e)

/-- C10 witness: in "ab\r\nz" the first line is CRLF-terminated and ends in a
non-blank character, and no finding is attributed to line 1. -/
theorem c10_witness :
    (lintCheckTrailingWhitespace "a.vhd" (['a', 'b'] ++ '\r' :: '\n' :: ['z'])).all
      (fun e => e.line != (pySplitlines (['a', 'b'] ++ ['\r', '\n'])).length) = true := by
  rw [List.all_eq_true]
  intro e he
  have h := c10_crlf_stripped_before_inspection "a.vhd" ['a', 'b'] ['z']
    (by decide) (by decide) e he
  simpa [bne_iff_ne] using h

theorem flatMap_perm_of_perm {α β : Type} (l : List α) (f g : α → List β)
    (h : ∀ a, List.Perm (f a) (g a)) : List.Perm (l.flatMap f) (l.flatMap g) := by
  induction l with
  | nil => simp
  | cons a l ih =>
    simp only [List.flatMap_cons]
    exact (h a).append ih

/-- C1: target discovery yields a list without duplicates, strictly sorted by
the full path string, and the result does not depend on the enumeration order
the file system happens to produce, so re-running discovery over an unchanged
tree returns the identical list. -/
theorem c1_discovery_sorted_unique_deterministic
    (repoRoot : String) (fs fs' : FSModel)
    (hex : fs.pathExists = fs'.pathExists)
    (hfile : fs.isFile = fs'.isFile)
    (hglob : ∀ r, List.Perm (fs.rglob r) (fs'.rglob r)) :
    (iterTargets repoRoot fs).Nodup
    ∧ (iterTargets repoRoot fs).Sorted (· < ·)
    ∧ iterTargets repoRoot fs = iterTargets repoRoot fs' := by
  have hnodup : ∀ (g : FSModel), (iterTargets repoRoot g).Nodup := by
    intro g
    unfold iterTargets
    exact (List.perm_insertionSort _ _).symm.nodup (List.nodup_dedup _)
  have hsortedLe : ∀ (g : FSModel), (iterTargets repoRoot g).Sorted (· ≤ ·) := by
    intro g
    unfold iterTargets
    exact List.sorted_insertionSort _ _
  refine ⟨hnodup fs, (hsortedLe fs).lt_of_le (hnodup fs), ?_⟩
  have hperm : List.Perm (iterTargets repoRoot fs) (iterTargets repoRoot fs') := by
    unfold iterTargets
    refine (List.perm_insertionSort _ _).trans (.trans ?_ (List.perm_insertionSort _ _).symm)
    refine List.Perm.dedup ?_
    refine flatMap_perm_of_perm _ _ _ ?_
    intro root
    rw [hex, hfile]
    by_cases hr : fs'.pathExists root = true
    · rw [if_pos hr, if_pos hr]
      exact (hglob root).filter _
    · rw [if_neg hr, if_neg hr]
  exact List.eq_of_perm_of_sorted hperm (hsortedLe fs) (hsortedLe fs')

/-- C1 witness: discovery on the concrete tree is duplicate-free, strictly
sorted, and agrees with a re-run. -/
theorem c1_witness :
    (iterTargets "/repo" fsW).Nodup
    ∧ (iterTargets "/repo" fsW).Sorted (· < ·)
    ∧ iterTargets "/repo" fsW = iterTargets "/repo" fsW :=
  c1_discovery_sorted_unique_deterministic "/repo" fsW fsW rfl rfl
    (fun _ => List.Perm.refl _)

/-- C4: for an in-scope VHDL file, the header check returns no finding when
the text starts with the exact delimiter line and all four labelled fields
occur in the first 80 lines; with exactly one field missing it returns
exactly the corresponding finding at line 1 and no others. -/
theorem c4_header_fields (path : String) (text : List Char)
    (happ : vhdlCheckApplies path = true)
    (hexc : excludedVhdlPath path = false)
    (hskip : (pathName path == "ordered_priority_queue_top.vhd") = false) :
    (pyStartsWith headerDelimiter.toList text = true →
      pyContains "IP Name:".toList (headLines text) = true →
      pyContains "Author:".toList (headLines text) = true →
      pyContains "Revision:".toList (headLines text) = true →
      pyContains "Description:".toList (headLines text) = true →
      lintCheckVhdlHeader path text = [])
    ∧ (pyStartsWith headerDelimiter.toList text = true →
      pyContains "IP Name:".toList (headLines text) = false →
      pyContains "Author:".toList (headLines text) = true →
      pyContains "Revision:".toList (headLines text) = true →
      pyContains "Description:".toList (headLines text) = true →
      lintCheckVhdlHeader path text
        = [⟨path, 1, "Missing header field \"IP Name:\" in top-of-file comment block"⟩])
    ∧ (pyStartsWith headerDelimiter.toList text = true →
      pyContains "IP Name:".toList (headLines text) = true →
      pyContains "Author:".toList (headLines text) = false →
      pyContains "Revision:".toList (headLines text) = true →
      pyContains "Description:".toList (headLines text) = true →
      lintCheckVhdlHeader path text
        = [⟨path, 1, "Missing header field \"Author:\" in top-of-file comment block"⟩])
    ∧ (pyStartsWith headerDelimiter.toList text = true →
      pyContains "IP Name:".toList (headLines text) = true →
      pyContains "Author:".toList (headLines text) = true →
      pyContains "Revision:".toList (headLines text) = false →
      pyContains "Description:".toList (headLines text) = true →
      lintCheckVhdlHeader path text
        = [⟨path, 1, "Missing header field \"Revision:\" in top-of-file comment block"⟩])
    ∧ (pyStartsWith headerDelimiter.toList text = true →
      pyContains "IP Name:".toList (headLines text) = true →
      pyContains "Author:".toList (headLines text) = true →
      pyContains "Revision:".toList (headLines text) = true →
      pyContains "Description:".toList (headLines text) = false →
      lintCheckVhdlHeader path text
        = [⟨path, 1, "Missing header field \"Description:\" in top-of-file comment block"⟩]) := by
  refine ⟨?_, ?_, ?_, ?_, ?_⟩ <;>
    intro h1 h2 h3 h4 h5 <;>
    simp only [String.toList] at h1 h2 h3 h4 h5 <;>
    simp [lintCheckVhdlHeader, happ, hexc, hskip, h1, h2, h3, h4, h5]

/-- C4 witness: the complete header yields no finding; dropping "Author:"
yields exactly the Author finding at line 1. -/
theorem c4_witness :
    lintCheckVhdlHeader "/repo/packet_scheduler/rtl/good.vhd" goodVhdlHeader.toList = []
    ∧ lintCheckVhdlHeader "/repo/packet_scheduler/rtl/good.vhd" noAuthorVhdlHeader.toList
      = [⟨"/repo/packet_scheduler/rtl/good.vhd", 1,
          "Missing header field \"Author:\" in top-of-file comment block"⟩] := by
  have h := c4_header_fields "/repo/packet_scheduler/rtl/good.vhd" goodVhdlHeader.toList
    (by decide) (by decide) (by decide)
  have h' := c4_header_fields "/repo/packet_scheduler/rtl/good.vhd" noAuthorVhdlHeader.toList
    (by decide) (by decide) (by decide)
  exact ⟨h.1 (by decide) (by decide) (by decide) (by decide) (by decide),
    h'.2.2.1 (by decide) (by decide) (by decide) (by decide) (by decide)⟩

theorem procDocLine_line (path : String) (lines : List (List Char))
    (pr : Nat × List Char) : ∀ e ∈ procDocLine path lines pr, e.line = pr.1 := by
  intro e he
  unfold procDocLine at he
  rcases hm : matchProcDecl pr.2 with _ | g1 <;> rw [hm] at he
  · simp at he
  · rcases List.mem_append.1 he with h | h <;> split at h <;> simp_all

/-- C3 (amended): for a declaration match at 1-indexed line `idx`, the
findings attributed to line `idx` are exactly those determined by the joined
window `lines[max(0, idx - 400) : idx]` — the declaration line itself plus up
to 399 preceding lines — one finding per annotation tag that window lacks. -/
theorem c3_procdoc_window (path : String) (text : List Char)
    (idx : Nat) (line : List Char) (g1 : List Char)
    (happ : vhdlCheckApplies path = true)
    (hexc : excludedVhdlPath path = false)
    (h1 : 1 ≤ idx)
    (hline : (pySplitlines text)[idx - 1]? = some line)
    (hm : matchProcDecl line = some g1) :
    (lintCheckVhdlProcDoc path text).filter (fun e => e.line = idx)
      = (if !pyContains "-- @name".toList
            (List.intercalate ['\n'] (((pySplitlines text).take idx).drop (idx - 400))) then
          [⟨path, idx, String.mk g1 ++ " missing preceding \"-- @name\" block"⟩]
        else []) ++
        (if !pyContains "-- @brief".toList
            (List.intercalate ['\n'] (((pySplitlines text).take idx).drop (idx - 400))) then
          [⟨path, idx, String.mk g1 ++ " missing preceding \"-- @brief\" block"⟩]
        else []) := by
  have hform : lintCheckVhdlProcDoc path text
      = (List.enumFrom 1 (pySplitlines text)).flatMap (procDocLine path (pySplitlines text)) := by
    unfold lintCheckVhdlProcDoc
    rw [happ, hexc]
    rfl
  have hfilter := filter_line_flatMap_enumFrom (procDocLine path (pySplitlines text))
    (procDocLine_line path (pySplitlines text)) (pySplitlines text) 1 idx line h1 hline
  rw [hform, hfilter]
  unfold procDocLine
  rw [hm]

/-- C3 counterexample: a single-line file whose labelled process declaration
carries both annotations after the `process` keyword on the same line.  The
400 lines strictly preceding line 1 are none and lack `-- @name`, yet the
check emits no finding at line 1, because the code's window
`lines[max(0, idx - 400) : idx]` includes the declaration line itself. -/
theorem c3_counterexample :
    vhdlCheckApplies "/repo/packet_scheduler/rtl/a.vhd" = true
    ∧ excludedVhdlPath "/repo/packet_scheduler/rtl/a.vhd" = false
    ∧ (pySplitlines "proc_a : process -- @name x -- @brief y".toList)[0]?
        = some "proc_a : process -- @name x -- @brief y".toList
    ∧ matchProcDecl "proc_a : process -- @name x -- @brief y".toList
        = some "proc_a".toList
    ∧ pyContains "-- @name".toList
        (List.intercalate ['\n']
          (((pySplitlines "proc_a : process -- @name x -- @brief y".toList).take 0).drop 0))
        = false
    ∧ lintCheckVhdlProcDoc "/repo/packet_scheduler/rtl/a.vhd"
        "proc_a : process -- @name x -- @brief y".toList = [] := by
  refine ⟨by decide, by decide, by decide, by decide, by decide, by decide⟩

/-- C3 witness: with both annotations inside the window ending at the
declaration line, the check attributes no finding to that line. -/
theorem c3_witness :
    (lintCheckVhdlProcDoc "/repo/packet_scheduler/rtl/a.vhd" procDocTextW.toList).filter
      (fun e => e.line = 3) = [] := by
  have h := c3_procdoc_window "/repo/packet_scheduler/rtl/a.vhd" procDocTextW.toList 3
    "proc_a : process (clk)".toList "proc_a".toList
    (by decide) (by decide) (by decide) (by decide) (by decide)
  rw [h]
  decide

theorem mem_ite_singleton {c : Prop} [Decidable c] {x e : LintError}
    (h : e ∈ (if c then [x] else [])) : e = x := by
  split at h <;> simp_all

theorem lintCheckTrailingWhitespace_path (path : String) (text : List Char) :
    ∀ e ∈ lintCheckTrailingWhitespace path text, e.path = path := by
  intro e he
  unfold lintCheckTrailingWhitespace at he
  simp only [List.mem_flatMap] at he
  obtain ⟨pr, _, hpr⟩ := he
  split at hpr <;> simp_all

theorem lintCheckVhdlHeader_path (path : String) (text : List Char) :
    ∀ e ∈ lintCheckVhdlHeader path text, e.path = path := by
  intro e he
  unfold lintCheckVhdlHeader at he
  split at he
  · simp at he
  split at he
  · simp at he
  split at he
  · simp at he
  rcases List.mem_append.1 he with h | h
  · rcases List.mem_append.1 h with h | h
    · rcases List.mem_append.1 h with h | h
      · rcases List.mem_append.1 h with h | h
        · rw [mem_ite_singleton h]
        · rw [mem_ite_singleton h]
      · rw [mem_ite_singleton h]
    · rw [mem_ite_singleton h]
  · rw [mem_ite_singleton h]

theorem lintCheckVhdlProcDoc_path (path : String) (text : List Char) :
    ∀ e ∈ lintCheckVhdlProcDoc path text, e.path = path := by
  intro e he
  unfold lintCheckVhdlProcDoc at he
  split at he
  · simp at he
  split at he
  · simp at he
  simp only [List.mem_flatMap] at he
  obtain ⟨pr, _, hpr⟩ := he
  unfold procDocLine at hpr
  rcases hm : matchProcDecl pr.2 with _ | g1 <;> rw [hm] at hpr
  · simp at hpr
  · rcases List.mem_append.1 hpr with h | h
    · rw [mem_ite_singleton h]
    · rw [mem_ite_singleton h]

theorem processFile_path (read : String → List Nat) (q : String) :
    ∀ e ∈ processFile read q, e.path = q := by
  intro e he
  unfold processFile at he
  rcases List.mem_append.1 he with h | h
  · exact (lintCheckNewlineAndCrlf_line_one q (read q) e h).2
  · rcases hd : utf8Decode (read q) with _ | text <;> rw [hd] at h
    · simp_all
    · rcases List.mem_append.1 h with h' | h'
      · rcases List.mem_append.1 h' with h2 | h2
        · exact lintCheckTrailingWhitespace_path q text e h2
        · exact lintCheckVhdlHeader_path q text e h2
      · exact lintCheckVhdlProcDoc_path q text e h'

theorem mainErrs_path (targets : List String) (read : String → List Nat) :
    ∀ e ∈ mainErrs targets read, e.path ∈ targets := by
  intro e he
  unfold mainErrs at he
  simp only [List.mem_flatMap] at he
  obtain ⟨q, hq, hpq⟩ := he
  rw [processFile_path read q e hpq]
  exact hq

/-- C2: the run exits with one of the codes 0, 1, 2: code 2 exactly when
discovery found nothing (and then no findings are collected), code 1 exactly
when targets exist and at least one finding was collected, code 0 exactly
when targets exist and none was. -/
theorem c2_exit_codes (repoRoot : String) (fs : FSModel) (read : String → List Nat) :
    ((mainRun repoRoot fs read).1 = 0 ∨ (mainRun repoRoot fs read).1 = 1
      ∨ (mainRun repoRoot fs read).1 = 2)
    ∧ (iterTargets repoRoot fs = [] → mainRun repoRoot fs read = (2, []))
    ∧ (iterTargets repoRoot fs ≠ [] →
        ((mainRun repoRoot fs read).1 = 1 ↔ (mainRun repoRoot fs read).2 ≠ [])
        ∧ ((mainRun repoRoot fs read).1 = 0 ↔ (mainRun repoRoot fs read).2 = [])
        ∧ (mainRun repoRoot fs read).2 = mainErrs (iterTargets repoRoot fs) read) := by
  rcases hts : iterTargets repoRoot fs with _ | ⟨t, ts'⟩
  · simp [mainRun, hts]
  · by_cases he : mainErrs (t :: ts') read = []
    · simp [mainRun, hts, he]
    · simp [mainRun, hts, he]

/-- C2 witness: with no existing root, discovery is empty and the run exits
with code 2 and no findings. -/
theorem c2_witness : mainRun "/repo" fsEmptyW (fun _ => []) = (2, []) := by
  have h := c2_exit_codes "/repo" fsEmptyW (fun _ => [])
  exact h.2.1 (by decide)

/-- C5: when a target's bytes do not decode as UTF-8, its contribution is the
byte-level findings followed by the single decode finding (the text-based
checks never run on it), exactly one decode finding is recorded for it, the
surrounding targets are processed unaffected, and — when the target occurs
once — the findings attributed to its path are exactly those. -/
theorem c5_decode_failure_isolated (read : String → List Nat)
    (ts1 ts2 : List String) (p : String)
    (hd : utf8Decode (read p) = none) :
    processFile read p
      = lintCheckNewlineAndCrlf p (read p) ++ [⟨p, 1, "File is not valid UTF-8"⟩]
    ∧ (processFile read p).countP (fun e => e.msg = "File is not valid UTF-8") = 1
    ∧ mainErrs (ts1 ++ p :: ts2) read
      = mainErrs ts1 read ++ processFile read p ++ mainErrs ts2 read
    ∧ (p ∉ ts1 → p ∉ ts2 →
        (mainErrs (ts1 ++ p :: ts2) read).filter (fun e => e.path = p)
          = lintCheckNewlineAndCrlf p (read p) ++ [⟨p, 1, "File is not valid UTF-8"⟩]) := by
  have h1eq : processFile read p
      = lintCheckNewlineAndCrlf p (read p) ++ [⟨p, 1, "File is not valid UTF-8"⟩] := by
    unfold processFile
    rw [hd]
  have h3eq : mainErrs (ts1 ++ p :: ts2) read
      = mainErrs ts1 read ++ processFile read p ++ mainErrs ts2 read := by
    simp [mainErrs, List.flatMap_append, List.flatMap_cons, List.append_assoc]
  refine ⟨h1eq, ?_, h3eq, ?_⟩
  · rw [h1eq, List.countP_append]
    have hcr : (lintCheckNewlineAndCrlf p (read p)).countP
        (fun e => e.msg = "File is not valid UTF-8") = 0 := by
      unfold lintCheckNewlineAndCrlf
      split <;> split <;> simp [List.countP_cons]
    rw [hcr]
    simp
  · intro hp1 hp2
    rw [h3eq, List.filter_append, List.filter_append]
    have hf1 : (mainErrs ts1 read).filter (fun e => e.path = p) = [] := by
      rw [List.filter_eq_nil_iff]
      intro e he
      have hmem := mainErrs_path ts1 read e he
      simp only [decide_eq_true_eq]
      intro hep
      rw [hep] at hmem
      exact hp1 hmem
    have hf2 : (mainErrs ts2 read).filter (fun e => e.path = p) = [] := by
      rw [List.filter_eq_nil_iff]
      intro e he
      have hmem := mainErrs_path ts2 read e he
      simp only [decide_eq_true_eq]
      intro hep
      rw [hep] at hmem
      exact hp2 hmem
    have hfm : (processFile read p).filter (fun e => e.path = p) = processFile read p := by
      rw [List.filter_eq_self]
      intro e he
      simp only [decide_eq_true_eq]
      exact processFile_path read p e he
    rw [hf1, hf2, hfm, List.nil_append, List.append_nil, h1eq]

/-- C5 witness: with `b.vhd` holding a single invalid byte between two valid
neighbours, the run's findings decompose around `b.vhd`'s byte-level findings
plus its single decode finding. -/
theorem c5_witness :
    mainErrs (["a.vhd"] ++ "b.vhd" :: ["c.sv"]) readC5
      = mainErrs ["a.vhd"] readC5
        ++ processFile readC5 "b.vhd"
        ++ mainErrs ["c.sv"] readC5
    ∧ processFile readC5 "b.vhd"
      = lintCheckNewlineAndCrlf "b.vhd" (readC5 "b.vhd")
        ++ [⟨"b.vhd", 1, "File is not valid UTF-8"⟩] := by
  have h := c5_decode_failure_isolated readC5 ["a.vhd"] ["c.sv"] "b.vhd" (by decide)
  exact ⟨h.2.2.1, h.1⟩

/-- C6: the failure report is the FAIL header and a blank line, then exactly
the first `min(total, 200)` findings in collection order, each rendered as
`"path:line: msg"`, with a `"... and K more"` trailer exactly when more than
200 findings were collected, where `K = total - 200`. -/
theorem c6_report_cap (errs : List LintError) (h : errs ≠ []) :
    (renderFailure errs).take 2 = ["opq_lint: FAIL", ""]
    ∧ ((renderFailure errs).drop 2).take ((errs.take 200).length)
      = (errs.take 200).map fmtLintError
    ∧ (errs.take 200).length = min errs.length 200
    ∧ (errs.length ≤ 200 →
        renderFailure errs = ["opq_lint: FAIL", ""] ++ errs.map fmtLintError)
    ∧ (200 < errs.length →
        renderFailure errs
          = ["opq_lint: FAIL", ""] ++ (errs.take 200).map fmtLintError
            ++ ["... and " ++ toString (errs.length - 200) ++ " more"])
    ∧ (200 < errs.length →
        (renderFailure errs).getLast?
          = some ("... and " ++ toString (errs.length - 200) ++ " more")) := by
  have hlen : ∀ (l : List String), (["opq_lint: FAIL", ""] ++ l).take 2
      = ["opq_lint: FAIL", ""] := fun l => List.take_left' rfl
  refine ⟨?_, ?_, ?_, ?_, ?_, ?_⟩
  · unfold renderFailure
    rw [List.append_assoc]
    exact hlen _
  · unfold renderFailure
    rw [List.append_assoc, List.drop_left' (by rfl : (["opq_lint: FAIL", ""] : List String).length = 2)]
    have : ((errs.take 200).map fmtLintError).length = (errs.take 200).length := by
      simp
    rw [← this]
    exact List.take_left _ _
  · simp [Nat.min_comm]
  · intro hle
    unfold renderFailure
    rw [if_neg (by omega), List.take_of_length_le hle]
    simp
  · intro hgt
    unfold renderFailure
    rw [if_pos hgt]
  · intro hgt
    unfold renderFailure
    rw [if_pos hgt, List.getLast?_concat]

set_option maxRecDepth 4000 in
/-- C6 witness: 250 findings render as the first 200 plus "... and 50 more". -/
theorem c6_witness :
    renderFailure errs250
      = ["opq_lint: FAIL", ""] ++ (errs250.take 200).map fmtLintError
        ++ ["... and 50 more"] := by
  have h := (c6_report_cap errs250 (by decide)).2.2.2.2.1 (by decide)
  rw [h]
  have h50 : toString (errs250.length - 200) = "50" := by decide
  rw [h50]
  rfl
